import Mathlib

/-!
Shallow embedding of `src/main.rs` of the basicos repository and proofs
about it.

The embedding covers the three modules of the source file:

* `vga_buffer`: the `Writer` over the 25×80 VGA character grid.  Machine
  integers (`u8`, `usize`) are modelled as `Nat`; the grid
  (`chars: [[Volatile<ScreenChar>; 80]; 25]`) is modelled as a total
  function from row and column to `ScreenChar`, and
  `self.buffer.chars[row][col].write(v)` becomes a pointwise functional
  update (`writeCell`).
* `port_io`: `QemuExitCode` and `exit_qemu`.  A hardware port write is
  modelled as an observable `Event.port` value.
* `test`: `test_runner` and the `Testable` blanket impl, together with the
  `panic` handler at the bottom of the file.  Serial output
  (`print_out!` / `println_out!`) is modelled as `Event.serial` values
  carrying the exact formatted text; entering one of the two terminal
  `loop {}` statements is modelled as a final `Event.halt`.  A test body
  is abstracted by its outcome: it either returns normally (`panics =
  none`) or hits the panic handler with a diagnostic message
  (`panics = some msg`); the test bodies in this repository print only to
  the VGA writer, never to the serial port, so a test contributes no
  serial events of its own.
-/

namespace BasicOS

/-- The `Color` enum of `vga_buffer` (`#[repr(u8)]`). -/
inductive Color where
  | Black
  | Blue
  | Green
  | Cyan
  | Red
  | Magenta
  | Brown
  | LightGray
  | DarkGray
  | LightBlue
  | LightGreen
  | LightCyan
  | LightRed
  | Pink
  | Yellow
  | White
deriving DecidableEq

/-- The `u8` discriminant of a `Color` (`Color as u8`). -/
def Color.toU8 : Color → Nat
  | .Black => 0
  | .Blue => 1
  | .Green => 2
  | .Cyan => 3
  | .Red => 4
  | .Magenta => 5
  | .Brown => 6
  | .LightGray => 7
  | .DarkGray => 8
  | .LightBlue => 9
  | .LightGreen => 10
  | .LightCyan => 11
  | .LightRed => 12
  | .Pink => 13
  | .Yellow => 14
  | .White => 15

/-- `ColorCode::new`: `(background as u8) << 4 | (foreground as u8)`,
computed in `u8` (hence the reduction modulo 256, which never truncates for
the discriminants 0–15). -/
def ColorCode.new (foreground background : Color) : Nat :=
  ((background.toU8 <<< 4) ||| foreground.toU8) % 256

/-- `ScreenChar { ascii_character: u8, color_code: ColorCode }`. -/
structure ScreenChar where
  ascii_character : Nat
  color_code : Nat
deriving DecidableEq

def BUFFER_HEIGHT : Nat := 25

def BUFFER_WIDTH : Nat := 80

/-- The VGA character grid, indexed by row then column
(`buffer.chars[row][col]`), modelled as a total function. -/
abbrev ScreenBuffer : Type := Nat → Nat → ScreenChar

/-- Models `self.buffer.chars[row][col].write(v)`: the grid with the single
cell at `(row, col)` replaced by `v`. -/
def writeCell (buf : ScreenBuffer) (row col : Nat) (v : ScreenChar) : ScreenBuffer :=
  fun r c => if r = row ∧ c = col then v else buf r c

/-- The `Writer` struct of `vga_buffer`. -/
structure Writer where
  column_position : Nat
  row_position : Nat
  color_code : Nat
  buffer : ScreenBuffer

/-- `Writer::new_line`: `row_position += 1; column_position = 0`. -/
def Writer.new_line (w : Writer) : Writer :=
  { w with row_position := w.row_position + 1, column_position := 0 }

/-- `Writer::write_byte`, translated clause by clause: a line-feed (`b'\n'`,
10) calls `new_line`; any other byte first wraps via `new_line` when
`column_position >= BUFFER_WIDTH`, then stores
`ScreenChar { ascii_character: byte, color_code }` at the cursor cell and
increments `column_position`. -/
def Writer.write_byte (w : Writer) (byte : Nat) : Writer :=
  if byte = 10 then
    w.new_line
  else
    let w' := if BUFFER_WIDTH ≤ w.column_position then w.new_line else w
    { w' with
      buffer := writeCell w'.buffer w'.row_position w'.column_position
        ⟨byte, w'.color_code⟩,
      column_position := w'.column_position + 1 }

/-- `Writer::write_string`: for each byte of the input, a printable ASCII
byte (`0x20..=0x7e`) or `b'\n'` is passed to `write_byte` unchanged, and
any other byte is replaced by the placeholder `0xfe`.  The Rust `&str` is
modelled by its byte sequence (`s.bytes()`). -/
def Writer.write_string (w : Writer) (s : List Nat) : Writer :=
  s.foldl
    (fun w byte =>
      if (0x20 ≤ byte ∧ byte ≤ 0x7e) ∨ byte = 10 then w.write_byte byte
      else w.write_byte 0xfe)
    w

/-- The initial `WRITER` state from the `lazy_static!` block:
`column_position: 0, row_position: 0, color_code: ColorCode::new(White,
Black)`, over whatever contents the VGA memory at `0xb8000` holds
(parameter `buf`). -/
def WRITER (buf : ScreenBuffer) : Writer :=
  { column_position := 0
    row_position := 0
    color_code := ColorCode.new Color.White Color.Black
    buffer := buf }

/-- A concrete all-zero grid, used to instantiate `WRITER` in closed
statements. -/
def blankBuffer : ScreenBuffer := fun _ _ => ⟨0, 0⟩

/-- An observable hardware effect of the `port_io` / `test` layer: bytes
written to the serial port, a value written to an I/O port, or entry into
one of the terminal `loop {}` statements. -/
inductive Event where
  | serial (s : String)
  | port (address : Nat) (value : Nat)
  | halt
deriving DecidableEq

/-- `QemuExitCode` (`#[repr(u32)]`). -/
inductive QemuExitCode where
  | Success
  | Failed
deriving DecidableEq

/-- The `u32` discriminant of a `QemuExitCode` (`exit_code as u32`). -/
def QemuExitCode.toU32 : QemuExitCode → Nat
  | .Success => 0x10
  | .Failed => 0x11

/-- `exit_qemu`: one write of `exit_code as u32` to port `0xf4`. -/
def exit_qemu (exit_code : QemuExitCode) : Event :=
  Event.port 0xf4 exit_code.toU32

/-- The serial output and port effects of the `panic` handler:
`println_out!("[failed]\n")`, `println_out!("Error: {}\n", info)` (with the
`PanicInfo` rendered as the string `info`), `exit_qemu(Failed)`, then
`loop {}`. -/
def panicEvents (info : String) : List Event :=
  [Event.serial "[failed]\n\n",
   Event.serial ("Error: " ++ info ++ "\n\n"),
   exit_qemu QemuExitCode.Failed,
   Event.halt]

/-- A test procedure of the `#[test_case]` list: its reporting name
(`core::any::type_name::<T>()`) and its outcome — `none` when the body
returns normally, `some msg` when it panics with diagnostic text `msg`. -/
structure TestCase where
  name : String
  panics : Option String
deriving DecidableEq

/-- The serial events of `Testable::run` for a test that returns normally:
`print_out!("{}...\t", type_name)` then `println_out!("[ok]")`. -/
def passEvents (t : TestCase) : List Event :=
  [Event.serial (t.name ++ "...\t"), Event.serial "[ok]\n"]

/-- The effects of the `for test in tests { test.run(); }` loop followed by
`exit_qemu(Success)`: each test prints its name and in-progress marker; a
normal return prints `[ok]` and the loop continues; a panic transfers
control to the panic handler, which never returns (so the rest of the list
is never reached).  When every test returns, `test_runner` signals success
and control falls back to the `loop {}` in `_start`. -/
def runEvents : List TestCase → List Event
  | [] => [exit_qemu QemuExitCode.Success, Event.halt]
  | t :: rest =>
    match t.panics with
    | none => Event.serial (t.name ++ "...\t") :: Event.serial "[ok]\n" :: runEvents rest
    | some msg => Event.serial (t.name ++ "...\t") :: panicEvents msg

/-- The pluralization argument of the header:
`match tests.len() { 1 => "test", _ => "tests" }`. -/
def testWord (n : Nat) : String :=
  match n with
  | 1 => "test"
  | _ => "tests"

/-- The header line printed by `test_runner`:
`println_out!("Running {} {}", tests.len(), match tests.len() { 1 => "test", _ => "tests" })`. -/
def header (n : Nat) : String :=
  "Running " ++ toString n ++ " " ++ testWord n ++ "\n"

/-- `test_runner`: the ANSI clear-screen sequence, the header line, then
the test loop and exit signal. -/
def test_runner (tests : List TestCase) : List Event :=
  Event.serial "\x1B[2J\x1B[1;1H" :: Event.serial (header tests.length) ::
    runEvents tests

/-! ## Basic facts about `Writer.write_byte` -/

/-- `write_byte` with a line-feed byte is exactly `new_line`. -/
theorem write_byte_lf (w : Writer) : w.write_byte 10 = w.new_line := rfl

/-- `write_byte` with a non-line-feed byte and an in-range cursor column
stores the byte at the cursor cell and advances the column. -/
theorem write_byte_store (w : Writer) (b : Nat) (hb : b ≠ 10)
    (hcol : w.column_position < BUFFER_WIDTH) :
    w.write_byte b =
      { w with
        buffer := writeCell w.buffer w.row_position w.column_position
          ⟨b, w.color_code⟩,
        column_position := w.column_position + 1 } := by
  simp only [Writer.write_byte, if_neg hb, if_neg (Nat.not_le.mpr hcol)]

/-- `write_byte` with a non-line-feed byte and a column at (or past) the
grid width first wraps to the start of the next row, then stores there. -/
theorem write_byte_wrap (w : Writer) (b : Nat) (hb : b ≠ 10)
    (hcol : BUFFER_WIDTH ≤ w.column_position) :
    w.write_byte b =
      { w with
        row_position := w.row_position + 1,
        column_position := 1,
        buffer := writeCell w.buffer (w.row_position + 1) 0
          ⟨b, w.color_code⟩ } := by
  simp only [Writer.write_byte, if_neg hb, if_pos hcol, Writer.new_line]

/-- Claim C4: a line-feed byte always resets the column to 0 and advances
the row by exactly 1, from every cursor state. -/
theorem newline_resets_column_increments_row (w : Writer) :
    (w.write_byte 10).column_position = 0 ∧
    (w.write_byte 10).row_position = w.row_position + 1 :=
  ⟨rfl, rfl⟩

/-- Claim C10: a line-feed byte leaves every cell of the character grid
unchanged; it mutates only the cursor state. -/
theorem newline_preserves_buffer (w : Writer) (r c : Nat) :
    (w.write_byte 10).buffer r c = w.buffer r c :=
  rfl

/-! ## Claim C1 -/

/-- Claim C1, counterexample: the claim as stated is false on the code.
`write_byte(1)` (byte 1 is neither printable nor line-feed) stores the raw
byte 1 at the cursor cell, not the placeholder 0xFE — the substitution
lives in `write_string`, not `write_byte`.  And `write_byte(10)`
(line-feed) stores nothing at the cursor cell: the cell keeps its previous
contents (here 0, which is not the line-feed byte). -/
theorem write_byte_placeholder_counterexample :
    ¬ ((0x20 ≤ 1 ∧ (1 : Nat) ≤ 0x7e) ∨ (1 : Nat) = 10) ∧
    (((WRITER blankBuffer).write_byte 1).buffer 0 0).ascii_character = 1 ∧
    (((WRITER blankBuffer).write_byte 1).buffer 0 0).ascii_character ≠ 0xfe ∧
    (((WRITER blankBuffer).write_byte 10).buffer 0 0).ascii_character ≠ 10 := by
  refine ⟨by decide, rfl, by decide, by decide⟩

/-- Claim C1, amended: `write_byte(b)` stores `b` itself at the
then-current cursor cell for every non-line-feed byte (printable or not);
a line-feed stores nothing at the cursor cell; the placeholder 0xFE is
substituted by `write_string`, which stores 0xFE at the cursor cell for
every byte that is neither printable ASCII (0x20–0x7E) nor line-feed. -/
theorem write_byte_passthrough_write_string_placeholder (w : Writer) (b : Nat)
    (hcol : w.column_position < BUFFER_WIDTH) :
    (b ≠ 10 →
      (w.write_byte b).buffer w.row_position w.column_position =
        ⟨b, w.color_code⟩) ∧
    ((w.write_byte 10).buffer w.row_position w.column_position =
      w.buffer w.row_position w.column_position) ∧
    (¬ ((0x20 ≤ b ∧ b ≤ 0x7e) ∨ b = 10) →
      (w.write_string [b]).buffer w.row_position w.column_position =
        ⟨0xfe, w.color_code⟩) := by
  refine ⟨fun hb => ?_, rfl, fun hb => ?_⟩
  · rw [write_byte_store w b hb hcol]
    simp [writeCell]
  · have h1 : w.write_string [b] = w.write_byte 0xfe := by
      simp only [Writer.write_string, List.foldl, if_neg hb]
    rw [h1, write_byte_store w 0xfe (by decide) hcol]
    simp [writeCell]

/-- Claim C1, witness: byte 200 is neither printable nor line-feed, and
`write_string` on it stores the placeholder 0xFE at the cursor cell. -/
theorem write_string_placeholder_witness :
    ((WRITER blankBuffer).write_string [200]).buffer 0 0 =
      ⟨0xfe, ColorCode.new Color.White Color.Black⟩ :=
  (write_byte_passthrough_write_string_placeholder (WRITER blankBuffer) 200
    (by decide)).2.2 (by decide)

/-! ## Claim C5 -/

/-- Claim C5, counterexample: the row bound of the claimed invariant fails.
Starting from the initial cursor state and writing 25 line-feed bytes with
`write_string` drives `row_position` to 25, which is not `< BUFFER_HEIGHT`:
the code increments the row without ever bounding it against the grid
height. -/
theorem row_invariant_counterexample :
    ((WRITER blankBuffer).write_string (List.replicate 25 10)).row_position
      = 25 ∧
    ¬ ((WRITER blankBuffer).write_string
        (List.replicate 25 10)).row_position < BUFFER_HEIGHT := by
  refine ⟨rfl, by decide⟩

/-- Claim C5, amended: only the column half of the invariant holds.  The
initial cursor state satisfies `column_position ≤ BUFFER_WIDTH`, and both
`write_byte` and `write_string` preserve that bound; the row bound
`row_position < BUFFER_HEIGHT` is not preserved (see the counterexample:
the code never bounds the row). -/
theorem column_invariant_preserved :
    (∀ buf : ScreenBuffer, (WRITER buf).column_position ≤ BUFFER_WIDTH) ∧
    (∀ (w : Writer) (b : Nat), w.column_position ≤ BUFFER_WIDTH →
      (w.write_byte b).column_position ≤ BUFFER_WIDTH) ∧
    (∀ (w : Writer) (s : List Nat), w.column_position ≤ BUFFER_WIDTH →
      (w.write_string s).column_position ≤ BUFFER_WIDTH) := by
  have hbyte : ∀ (w : Writer) (b : Nat),
      (w.write_byte b).column_position ≤ BUFFER_WIDTH := by
    intro w b
    by_cases hb : b = 10
    · subst hb
      simp [write_byte_lf, Writer.new_line]
    · by_cases hcol : BUFFER_WIDTH ≤ w.column_position
      · rw [write_byte_wrap w b hb hcol]
        show (1 : Nat) ≤ BUFFER_WIDTH
        decide
      · rw [write_byte_store w b hb (Nat.not_le.mp hcol)]
        have := Nat.not_le.mp hcol
        simpa using this
  refine ⟨fun buf => by simp [WRITER], fun w b _ => hbyte w b, fun w s => ?_⟩
  induction s generalizing w with
  | nil => intro h; exact h
  | cons b rest ih =>
    intro _
    have hstep : w.write_string (b :: rest) =
        Writer.write_string
          (if (0x20 ≤ b ∧ b ≤ 0x7e) ∨ b = 10 then w.write_byte b
           else w.write_byte 0xfe) rest := by
      by_cases hb : (0x20 ≤ b ∧ b ≤ 0x7e) ∨ b = 10 <;>
        simp [Writer.write_string, List.foldl, hb]
    rw [hstep]
    by_cases hb : (0x20 ≤ b ∧ b ≤ 0x7e) ∨ b = 10 <;> simp only [hb, if_pos, if_neg] <;>
      first
        | exact ih _ (hbyte w b)
        | exact ih _ (hbyte w 0xfe)

/-- Claim C5, witness: the preserved column bound, instantiated at the
initial writer and a mixed printable / line-feed / unprintable input. -/
theorem column_invariant_witness :
    ((WRITER blankBuffer).write_string [65, 10, 200]).column_position ≤
      BUFFER_WIDTH :=
  column_invariant_preserved.2.2 (WRITER blankBuffer) [65, 10, 200]
    (by decide)

/-! ## Layout of a printable string written within one row -/

/-- Writing a string of printable bytes that fits in the remainder of the
current row lays the bytes out left to right from the cursor: the row,
color and all cells outside the written span are unchanged, the column
advances by the length, and cell `i` of the span holds byte `i` with the
writer's color. -/
theorem write_string_printable_spec (s : List Nat) : ∀ (w : Writer),
    (∀ b ∈ s, 0x20 ≤ b ∧ b ≤ 0x7e) →
    w.column_position + s.length ≤ BUFFER_WIDTH →
    (w.write_string s).row_position = w.row_position ∧
    (w.write_string s).column_position = w.column_position + s.length ∧
    (w.write_string s).color_code = w.color_code ∧
    (∀ i (h : i < s.length),
      (w.write_string s).buffer w.row_position (w.column_position + i) =
        ⟨s.get ⟨i, h⟩, w.color_code⟩) ∧
    (∀ r c, r ≠ w.row_position ∨ c < w.column_position ∨
        w.column_position + s.length ≤ c →
      (w.write_string s).buffer r c = w.buffer r c) := by
  induction s with
  | nil =>
    intro w _ _
    exact ⟨rfl, rfl, rfl, fun i h => absurd h (by simp), fun r c _ => rfl⟩
  | cons b rest ih =>
    intro w hall hfit
    have hb := hall b (List.mem_cons_self b rest)
    have hb10 : b ≠ 10 := by omega
    have hcol : w.column_position < BUFFER_WIDTH := by
      simp only [List.length_cons] at hfit; omega
    have hstep : w.write_string (b :: rest) =
        (w.write_byte b).write_string rest := by
      simp only [Writer.write_string, List.foldl, if_pos (Or.inl hb)]
    rw [hstep, write_byte_store w b hb10 hcol]
    obtain ⟨h1, h2, h3, h4, h5⟩ := ih
      { w with
        buffer := writeCell w.buffer w.row_position w.column_position
          ⟨b, w.color_code⟩,
        column_position := w.column_position + 1 }
      (fun x hx => hall x (List.mem_cons_of_mem b hx))
      (by
        show w.column_position + 1 + rest.length ≤ BUFFER_WIDTH
        simp only [List.length_cons] at hfit; omega)
    dsimp only at h1 h2 h3 h4 h5
    refine ⟨h1, ?_, h3, ?_, ?_⟩
    · rw [h2]; simp only [List.length_cons]; omega
    · intro i h
      cases i with
      | zero =>
        have hframe := h5 w.row_position w.column_position
          (Or.inr (Or.inl (by omega)))
        simpa [writeCell] using hframe
      | succ i =>
        have hcell := h4 i (by simp only [List.length_cons] at h; omega)
        rw [show w.column_position + (i + 1) = w.column_position + 1 + i from
          by omega]
        exact hcell
    · intro r c hout
      refine (h5 r c ?_).trans ?_
      · rcases hout with h | h | h
        · exact Or.inl h
        · exact Or.inr (Or.inl (by omega))
        · simp only [List.length_cons] at h
          exact Or.inr (Or.inr (by omega))
      · show writeCell w.buffer w.row_position w.column_position
          ⟨b, w.color_code⟩ r c = w.buffer r c
        unfold writeCell
        rw [if_neg]
        rintro ⟨hr, hc⟩
        rcases hout with h | h | h
        · exact h hr
        · omega
        · simp only [List.length_cons] at h; omega

/-! ## Claim C2 -/

/-- Claim C2: for a string of printable ASCII bytes of length at most the
grid width, written from the initial cursor position (row 0, column 0),
reading back the first `len(S)` cells of row 0 yields exactly the bytes of
S in order. -/
theorem write_string_row0_readback (w : Writer) (s : List Nat)
    (hall : ∀ b ∈ s, 0x20 ≤ b ∧ b ≤ 0x7e)
    (hlen : s.length ≤ BUFFER_WIDTH)
    (hrow : w.row_position = 0) (hcol : w.column_position = 0) :
    ∀ i (h : i < s.length),
      ((w.write_string s).buffer 0 i).ascii_character = s.get ⟨i, h⟩ := by
  obtain ⟨-, -, -, h4, -⟩ := write_string_printable_spec s w hall (by omega)
  intro i h
  have hc := h4 i h
  rw [hrow, hcol] at hc
  simp only [Nat.zero_add] at hc
  rw [hc]

/-- Claim C2, witness: the two bytes of "Hi" read back from row 0. -/
theorem write_string_row0_readback_witness :
    (((WRITER blankBuffer).write_string [72, 105]).buffer 0 0).ascii_character
      = 72 ∧
    (((WRITER blankBuffer).write_string [72, 105]).buffer 0 1).ascii_character
      = 105 :=
  ⟨write_string_row0_readback (WRITER blankBuffer) [72, 105] (by decide)
      (by decide) rfl rfl 0 (by decide),
    write_string_row0_readback (WRITER blankBuffer) [72, 105] (by decide)
      (by decide) rfl rfl 1 (by decide)⟩

/-! ## Claim C3 -/

/-- Claim C3: when the column has reached the grid width, `write_byte` of a
printable byte performs an implicit line-feed before placing it (for every
cursor state); in particular, writing exactly `BUFFER_WIDTH` printable
bytes from the start of a row and then one more printable byte places that
byte at column 0 of the next row, leaving the cursor at column 1 of that
row — wrap, not truncation or overwrite of the last column. -/
theorem write_byte_wraps_to_next_row :
    (∀ (w : Writer) (b : Nat), BUFFER_WIDTH ≤ w.column_position →
      0x20 ≤ b ∧ b ≤ 0x7e →
      (w.write_byte b).buffer (w.row_position + 1) 0 = ⟨b, w.color_code⟩ ∧
      (w.write_byte b).row_position = w.row_position + 1 ∧
      (w.write_byte b).column_position = 1) ∧
    (∀ (w : Writer) (s : List Nat) (b : Nat), w.column_position = 0 →
      s.length = BUFFER_WIDTH → (∀ x ∈ s, 0x20 ≤ x ∧ x ≤ 0x7e) →
      0x20 ≤ b ∧ b ≤ 0x7e →
      ((w.write_string s).write_byte b).buffer (w.row_position + 1) 0 =
        ⟨b, w.color_code⟩ ∧
      ((w.write_string s).write_byte b).row_position = w.row_position + 1 ∧
      ((w.write_string s).write_byte b).column_position = 1) := by
  have hwrap : ∀ (w : Writer) (b : Nat), BUFFER_WIDTH ≤ w.column_position →
      0x20 ≤ b ∧ b ≤ 0x7e →
      (w.write_byte b).buffer (w.row_position + 1) 0 = ⟨b, w.color_code⟩ ∧
      (w.write_byte b).row_position = w.row_position + 1 ∧
      (w.write_byte b).column_position = 1 := by
    intro w b hcol hb
    rw [write_byte_wrap w b (by omega) hcol]
    refine ⟨?_, rfl, rfl⟩
    simp [writeCell]
  refine ⟨hwrap, fun w s b hcol hlen hall hb => ?_⟩
  obtain ⟨h1, h2, h3, -, -⟩ :=
    write_string_printable_spec s w hall (by omega)
  have hcol' : BUFFER_WIDTH ≤ (w.write_string s).column_position := by omega
  have h := hwrap (w.write_string s) b hcol' hb
  rw [h1, h3] at h
  exact h

/-- Claim C3, witness: 80 copies of 'A' from the initial cursor, then 'B';
'B' lands at row 1, column 0 and the cursor is at row 1, column 1. -/
theorem write_byte_wraps_witness :
    (((WRITER blankBuffer).write_string
        (List.replicate 80 65)).write_byte 66).row_position = 1 ∧
    (((WRITER blankBuffer).write_string
        (List.replicate 80 65)).write_byte 66).column_position = 1 ∧
    (((WRITER blankBuffer).write_string
        (List.replicate 80 65)).write_byte 66).buffer 1 0 =
      ⟨66, ColorCode.new Color.White Color.Black⟩ :=
  have h := write_byte_wraps_to_next_row.2 (WRITER blankBuffer)
    (List.replicate 80 65) 66 rfl rfl (by decide) (by decide)
  ⟨h.2.1, h.2.2, h.1⟩

/-! ## Test harness -/

/-- The test loop over a list of tests that all return normally runs every
test in order and then signals success and halts. -/
theorem runEvents_all_pass (ts : List TestCase)
    (h : ∀ t ∈ ts, t.panics = none) :
    runEvents ts =
      (ts.map passEvents).flatten ++ [exit_qemu QemuExitCode.Success, Event.halt] := by
  induction ts with
  | nil => rfl
  | cons t rest ih =>
    have ht := h t (List.mem_cons_self t rest)
    rw [runEvents, ht]
    rw [ih (fun x hx => h x (List.mem_cons_of_mem t hx))]
    simp [passEvents]

/-- The test loop over a prefix of normally-returning tests followed by a
panicking test prints the prefix's reports, then the panicking test's name,
then the panic handler's events — and nothing for the tests after it. -/
theorem runEvents_panic (pre : List TestCase) (t : TestCase)
    (post : List TestCase) (msg : String)
    (hpre : ∀ x ∈ pre, x.panics = none) (ht : t.panics = some msg) :
    runEvents (pre ++ t :: post) =
      (pre.map passEvents).flatten ++
        (Event.serial (t.name ++ "...\t") :: panicEvents msg) := by
  induction pre with
  | nil =>
    rw [List.nil_append, runEvents, ht]
    simp
  | cons p rest ih =>
    have hp := hpre p (List.mem_cons_self p rest)
    rw [List.cons_append, runEvents, hp]
    rw [ih (fun x hx => hpre x (List.mem_cons_of_mem p hx))]
    simp [passEvents]

/-- No per-test report of a normally-returning test contains a port write:
the success signal cannot come from the loop body. -/
theorem count_success_passEvents (ts : List TestCase) :
    ((ts.map passEvents).flatten).count (exit_qemu QemuExitCode.Success) = 0 := by
  induction ts with
  | nil => rfl
  | cons t rest ih =>
    rw [List.map_cons, List.flatten_cons, List.count_append, ih]
    simp [passEvents, List.count_cons, exit_qemu, QemuExitCode.toU32]

/-! ## Claim C7 -/

/-- Claim C7: when every declared test returns normally, `test_runner`
clears the screen, prints the header, then for each test in declaration
order prints its name with the in-progress marker `...\t` (no trailing
line-feed) and `[ok]` with a line-feed after it returns, and finally emits
the success exit code exactly once before halting. -/
theorem test_runner_all_pass (tests : List TestCase)
    (h : ∀ t ∈ tests, t.panics = none) :
    test_runner tests =
      Event.serial "\x1B[2J\x1B[1;1H" :: Event.serial (header tests.length) ::
        ((tests.map passEvents).flatten ++
          [exit_qemu QemuExitCode.Success, Event.halt]) ∧
    (test_runner tests).count (exit_qemu QemuExitCode.Success) = 1 := by
  have he := runEvents_all_pass tests h
  refine ⟨by rw [test_runner, he], ?_⟩
  rw [test_runner, he]
  rw [List.count_cons, List.count_cons, List.count_append,
    count_success_passEvents]
  simp [List.count_cons, exit_qemu, QemuExitCode.toU32]

/-- Claim C7, witness: two passing tests, reported in declaration order,
with the success code emitted exactly once. -/
theorem test_runner_all_pass_witness :
    test_runner [⟨"t1", none⟩, ⟨"t2", none⟩] =
      Event.serial "\x1B[2J\x1B[1;1H" ::
        Event.serial (header ([⟨"t1", none⟩, ⟨"t2", none⟩] : List TestCase).length) ::
        ((([⟨"t1", none⟩, ⟨"t2", none⟩] : List TestCase).map passEvents).flatten ++
          [exit_qemu QemuExitCode.Success, Event.halt]) ∧
    (test_runner [⟨"t1", none⟩, ⟨"t2", none⟩]).count
      (exit_qemu QemuExitCode.Success) = 1 :=
  test_runner_all_pass [⟨"t1", none⟩, ⟨"t2", none⟩] (by decide)

/-! ## Claim C6 -/

/-- Claim C6: when a test panics, the run's trace consists of the header,
the reports of the earlier (passing) tests, the panicking test's name and
in-progress marker, then exactly the panic handler's events: `[failed]`,
the description of the failing condition, the `Failed` exit code on the
control port, and the terminal halt.  No event of any later test appears:
no further tests execute, and nothing follows the halt. -/
theorem panic_aborts_run (pre post : List TestCase) (t : TestCase)
    (msg : String) (hpre : ∀ x ∈ pre, x.panics = none)
    (ht : t.panics = some msg) :
    test_runner (pre ++ t :: post) =
      Event.serial "\x1B[2J\x1B[1;1H" ::
        Event.serial (header (pre ++ t :: post).length) ::
        ((pre.map passEvents).flatten ++
          (Event.serial (t.name ++ "...\t") :: panicEvents msg)) := by
  rw [test_runner, runEvents_panic pre t post msg hpre ht]

/-- Claim C6, witness: a passing test, then a test panicking with message
"boom", then a test that never runs. -/
theorem panic_aborts_run_witness :
    test_runner ([⟨"good", none⟩] ++ ⟨"bad", some "boom"⟩ :: [⟨"late", none⟩]) =
      Event.serial "\x1B[2J\x1B[1;1H" ::
        Event.serial (header (([⟨"good", none⟩] ++ ⟨"bad", some "boom"⟩ ::
          [⟨"late", none⟩] : List TestCase).length)) ::
        ((([⟨"good", none⟩] : List TestCase).map passEvents).flatten ++
          (Event.serial ("bad" ++ "...\t") :: panicEvents "boom")) :=
  panic_aborts_run [⟨"good", none⟩] [⟨"late", none⟩] ⟨"bad", some "boom"⟩
    "boom" (by decide) rfl

/-! ## Claim C8 -/

/-- Claim C8: the header pluralizes the test count correctly — one test
produces "Running 1 test" (and "1 tests" occurs nowhere in it), while any
other count N produces "Running N tests". -/
theorem header_pluralization :
    header 1 = "Running 1 test\n" ∧
    "1 test".data <:+: (header 1).data ∧
    ¬ ("1 tests".data <:+: (header 1).data) ∧
    ∀ n, n ≠ 1 → header n = "Running " ++ toString n ++ " tests\n" := by
  refine ⟨by decide, by decide, by decide, ?_⟩
  intro n hn
  have hword : testWord n = "tests" := by
    cases n with
    | zero => rfl
    | succ m =>
      cases m with
      | zero => exact absurd rfl hn
      | succ k => rfl
  show "Running " ++ toString n ++ " " ++ testWord n ++ "\n" =
    "Running " ++ toString n ++ " tests\n"
  rw [hword, String.append_assoc, String.append_assoc]
  congr 1

/-- Claim C8, witness: the plural branch at count 2. -/
theorem header_pluralization_witness :
    header 2 = "Running " ++ toString 2 ++ " tests\n" :=
  header_pluralization.2.2.2 2 (by decide)

/-! ## Claim C9 -/

/-- Claim C9: the two exit codes are the fixed 32-bit constants 0x10 and
0x11; they are never equal, and `exit_qemu` writes exactly the given
code's 32-bit constant to the control port 0xf4. -/
theorem exit_codes_distinct :
    QemuExitCode.Success.toU32 = 0x10 ∧
    QemuExitCode.Failed.toU32 = 0x11 ∧
    QemuExitCode.Success.toU32 ≠ QemuExitCode.Failed.toU32 ∧
    QemuExitCode.Success.toU32 < 2 ^ 32 ∧
    QemuExitCode.Failed.toU32 < 2 ^ 32 ∧
    ∀ code, exit_qemu code = Event.port 0xf4 code.toU32 :=
  ⟨rfl, rfl, by decide, by decide, by decide, fun _ => rfl⟩

end BasicOS
